import Mathlib

/-!
Verification of the stock-dashboard data module (src/Dashboard.py).

The Python program is a pandas/streamlit dashboard.  We shallowly embed the
data-bearing parts of the source: records of the normalized dataframe become
the structure `StockRecord`, dataframe columns that may hold NaN become
`Option ℚ`, and each pandas pipeline used by the program (filtering by date,
date range or month, `get_stock_highs`, `get_latest_stock_data`, the sector
histogram of the Month/Date-Range views, and the formatters `format_number`
and `format_metric_value`) becomes an executable Lean function on lists.

Modelling conventions, stated once:
* Calendar dates are abstracted to a day index `date : Nat`; the separate
  `timeOfDay : Nat` component models the time part of a pandas timestamp,
  which `.dt.date` comparisons ignore.  `strftime('%B %Y')` month labels are
  modelled by `monthLabel`, an injective function of the 31-day block of the
  day index (claims never exercise real calendar arithmetic).
* pandas `sort_values` is modelled with `List.insertionSort`, a stable sort;
  the source's quicksort leaves the order of fully tied rows unspecified and
  no claim depends on it.
* `pd.to_numeric(errors='coerce')` and Python `float(...)` on cleaned strings
  are modelled by `parseDecimal` (sign, digits, optional fractional part);
  on any other shape the result is `none`, the model of NaN.
* Python `f"{x:.2f}"` / pandas `.round(2)` round half to even; `roundHalfEven`
  implements that on `ℚ`.
-/

/-- One row of the dataframe produced by `load_data` (src/Dashboard.py:6-38).
Columns that `pd.to_numeric(errors='coerce')` may turn into NaN are `Option ℚ`;
`sector`, `industry` and `about` are never cleaned by `load_data`, so empty
CSV cells leave them NaN (`none` here); `seriesType` is total because of
`fillna('N/A')`; `month` is the `Month` column that the Month view adds at
line 527 — it is `none` right after loading. -/
structure StockRecord where
  date : Nat
  timeOfDay : Nat
  symbol : String
  ltp : Option ℚ
  pchng : Option ℚ
  sector : Option String
  industry : Option String
  seriesType : String
  marketCap : Option ℚ
  peRatio : Option ℚ
  roe : Option ℚ
  roce : Option ℚ
  bookValue : Option ℚ
  dividendYield : Option ℚ
  about : Option String
  month : Option String
  deriving DecidableEq, Inhabited, Repr

attribute [ext] StockRecord

/-- Helper for building concrete records in examples; fields that a given
example does not exercise get fixed defaults. -/
def mkRec (d : Nat) (sym : String) (p : Option ℚ) (c : Option ℚ) (sec : String) :
    StockRecord :=
  { date := d, timeOfDay := 0, symbol := sym, ltp := p, pchng := c,
    sector := some sec, industry := some "Ind", seriesType := "EQ",
    marketCap := none, peRatio := none, roe := none, roce := none,
    bookValue := none, dividendYield := none, about := none, month := none }

/-- Filter of the "Specific Date" view (src/Dashboard.py:351):
`data[data["Today's Date"].dt.date == selected_date]`.  `.dt.date` drops the
time-of-day component, so only `date` is compared. -/
def filterByExactDate (ds : List StockRecord) (d : Nat) : List StockRecord :=
  ds.filter (fun r => r.date == d)

/-- Filter of the "Date Range" view (src/Dashboard.py:681-684):
`data[(data["Today's Date"].dt.date >= start_date) & (data["Today's Date"].dt.date <= end_date)]`.
The code performs no validation of `start <= end`. -/
def filterByDateRange (ds : List StockRecord) (start finish : Nat) : List StockRecord :=
  ds.filter (fun r => decide (start ≤ r.date) && decide (r.date ≤ finish))

/-- Error type of the spec's `InvalidRangeError`. -/
inductive RangeError where
  | invalidRange
  deriving DecidableEq, Repr

/-- Modelled from the spec: `filterByDateRange(dataset, start, end)` "fails
with `InvalidRangeError` if `start > end`", otherwise returns the inclusive
range subset.  This definition follows the spec's words and is compared with
`filterByDateRange`, the embedding of the code. -/
def filterByDateRangeSpec (ds : List StockRecord) (start finish : Nat) :
    Except RangeError (List StockRecord) :=
  if finish < start then Except.error RangeError.invalidRange
  else Except.ok (ds.filter (fun r => decide (start ≤ r.date) && decide (r.date ≤ finish)))

/-- Month label of a record, modelling `strftime('%B %Y')` applied to the
abstract day index (months are modelled as 31-day blocks). -/
def monthLabel (d : Nat) : String :=
  toString (d / 31)

/-- Filter of the "Month" view (src/Dashboard.py:532):
`data[data["Today's Date"].dt.strftime('%B %Y') == selected_month]`. -/
def filterByMonth (ds : List StockRecord) (lbl : String) : List StockRecord :=
  ds.filter (fun r => monthLabel r.date == lbl)

/-- Mutation performed by the Month view (src/Dashboard.py:527):
`data['Month'] = data["Today's Date"].dt.strftime('%B %Y')` sets a `Month`
column on every record of the dataset in place. -/
def addMonthColumn (ds : List StockRecord) : List StockRecord :=
  ds.map (fun r => { r with month := some (monthLabel r.date) })

/-- Sector refinement (src/Dashboard.py:363-364, 544-545, 696-697): identity
for the sentinel `'All'`, otherwise an exact match on `Sector` (a NaN sector
never equals a string, so it never matches). -/
def refineBySector (ds : List StockRecord) (sec : String) : List StockRecord :=
  if sec = "All" then ds else ds.filter (fun r => r.sector == some sec)

/-- Series-type refinement (src/Dashboard.py:365-366, 546-547, 698-699). -/
def refineBySeriesType (ds : List StockRecord) (ser : String) : List StockRecord :=
  if ser = "All" then ds else ds.filter (fun r => r.seriesType == ser)

instance : DecidableEq (Except RangeError (List StockRecord)) := fun a b =>
  match a, b with
  | .ok x, .ok y => decidable_of_iff (x = y) (by simp)
  | .error x, .error y => decidable_of_iff (x = y) (by simp)
  | .ok _, .error _ => isFalse (by simp)
  | .error _, .ok _ => isFalse (by simp)

/-- Dataset used by the C1 example: one record inside the inverted range. -/
def exC1ds : List StockRecord :=
  [mkRec 4 "AAA" (some 10) (some 1) "Tech"]

/-- C1 counterexample: the claim says `filterByDateRange` with `start > end`
signals `InvalidRangeError`.  On the concrete dataset `exC1ds` with
`start = 5 > 3 = end`, the spec-modelled operation signals the error while the
code's filter returns an ordinary (empty) subset — no error is ever raised by
src/Dashboard.py:681-684. -/
theorem c1_counterexample :
    filterByDateRangeSpec exC1ds 5 3 = Except.error RangeError.invalidRange ∧
    filterByDateRange exC1ds 5 3 = [] ∧
    (Except.ok (filterByDateRange exC1ds 5 3) : Except RangeError (List StockRecord)) ≠
      filterByDateRangeSpec exC1ds 5 3 := by
  decide

/-- C1 (amended): for every dataset and every pair of dates with
`start > end`, the code's `filterByDateRange` returns the empty subset — no
partial match — but it does not signal `InvalidRangeError`; the empty result
is handled by the ordinary "no data" warning.  For valid ranges the code
agrees with the spec-modelled operation. -/
theorem c1_filterByDateRange_inverted_empty (ds : List StockRecord)
    (start finish : Nat) (h : finish < start) :
    filterByDateRange ds start finish = [] ∧
    filterByDateRangeSpec ds start finish = Except.error RangeError.invalidRange := by
  constructor
  · apply List.filter_eq_nil_iff.mpr
    intro r _
    simp only [Bool.and_eq_true, decide_eq_true_eq, not_and]
    omega
  · simp [filterByDateRangeSpec, h]

/-- C1 witness: the amended theorem applied at a concrete inverted range. -/
theorem c1_witness :
    filterByDateRange exC1ds 5 3 = [] ∧
    filterByDateRangeSpec exC1ds 5 3 = Except.error RangeError.invalidRange :=
  c1_filterByDateRange_inverted_empty exC1ds 5 3 (by decide)

/-- Timestamp order on records: the chronological order used by
`sort_values("Today's Date")`, comparing the day index first and the
time-of-day component second. -/
def tsLe (a b : StockRecord) : Prop :=
  a.date < b.date ∨ (a.date = b.date ∧ a.timeOfDay ≤ b.timeOfDay)

instance : DecidableRel tsLe := fun a b => by unfold tsLe; infer_instance

instance : IsTotal StockRecord tsLe := ⟨by intro a b; unfold tsLe; omega⟩

instance : IsTrans StockRecord tsLe := ⟨by intro a b c; unfold tsLe; omega⟩

/-- Chronological sort of a record list, modelling
`stock_data.sort_values("Today's Date")` (src/Dashboard.py:45). -/
def sortByDate (l : List StockRecord) : List StockRecord :=
  List.insertionSort tsLe l

/-- Running-maximum scan over a chronologically sorted series, modelling
src/Dashboard.py:46-47: `High_LTP = LTP.cummax()` followed by selecting the
rows with `LTP == High_LTP`.  The accumulator `m` is the running maximum of
the non-missing prices seen so far; a row with missing `LTP` is never selected
(its `High_LTP` comparison is NaN == NaN, false in pandas) and leaves the
running maximum unchanged. -/
def highsAux (m : Option ℚ) : List StockRecord → List StockRecord
  | [] => []
  | r :: rs =>
    match r.ltp with
    | none => highsAux m rs
    | some p =>
      match m with
      | none => r :: highsAux (some p) rs
      | some q => if q ≤ p then r :: highsAux (some p) rs else highsAux (some q) rs

/-- Embedding of `get_stock_highs` (src/Dashboard.py:40-49): guard on a
non-empty symbol argument, restrict the dataset to that symbol, return the
pair (high points, chronologically sorted full series); empty pair when the
symbol is falsy or has no rows. -/
def get_stock_highs (ds : List StockRecord) (symbol : String) :
    List StockRecord × List StockRecord :=
  if symbol = "" then ([], [])
  else
    let sd := ds.filter (fun r => r.symbol == symbol)
    if sd.isEmpty then ([], [])
    else
      (highsAux none (sortByDate sd), sortByDate sd)

theorem highsAux_cons_missing (m : Option ℚ) (r : StockRecord) (rs : List StockRecord)
    (h : r.ltp = none) : highsAux m (r :: rs) = highsAux m rs := by
  simp [highsAux, h]

theorem highsAux_cons_start (r : StockRecord) (rs : List StockRecord) (p : ℚ)
    (h : r.ltp = some p) : highsAux none (r :: rs) = r :: highsAux (some p) rs := by
  simp [highsAux, h]

theorem highsAux_cons_run (r : StockRecord) (rs : List StockRecord) (p q : ℚ)
    (h : r.ltp = some p) :
    highsAux (some q) (r :: rs) =
      if q ≤ p then r :: highsAux (some p) rs else highsAux (some q) rs := by
  simp [highsAux, h]

/-- Every selected high point carries a non-missing price that dominates the
running maximum the scan started from. -/
theorem highsAux_lb (l : List StockRecord) :
    ∀ (m : Option ℚ), ∀ r ∈ highsAux m l,
      ∃ p, r.ltp = some p ∧ ∀ q, m = some q → q ≤ p := by
  induction l with
  | nil => intro m r hr; simp [highsAux] at hr
  | cons a l ih =>
    intro m r hr
    cases hl : a.ltp with
    | none =>
      rw [highsAux_cons_missing m a l hl] at hr
      exact ih m r hr
    | some p =>
      cases m with
      | none =>
        rw [highsAux_cons_start a l p hl] at hr
        rcases List.mem_cons.mp hr with hr | hr
        · exact ⟨p, by simp [hr, hl]⟩
        · obtain ⟨p', hp', hub⟩ := ih (some p) r hr
          exact ⟨p', hp', by intro q hq; cases hq⟩
      | some q =>
        rw [highsAux_cons_run a l p q hl] at hr
        by_cases hqp : q ≤ p
        · rw [if_pos hqp] at hr
          rcases List.mem_cons.mp hr with hr | hr
          · refine ⟨p, by simp [hr, hl], ?_⟩
            intro q' hq'; cases hq'; exact hqp
          · obtain ⟨p', hp', hub⟩ := ih (some p) r hr
            refine ⟨p', hp', ?_⟩
            intro q' hq'; cases hq'
            exact le_trans hqp (hub p rfl)
        · rw [if_neg hqp] at hr
          exact ih (some q) r hr

/-- The prices of the selected high points are non-decreasing in scan order. -/
theorem highsAux_sorted (l : List StockRecord) :
    ∀ (m : Option ℚ),
      List.Sorted (fun a b : StockRecord => a.ltp.getD 0 ≤ b.ltp.getD 0) (highsAux m l) := by
  induction l with
  | nil => intro m; simp [highsAux]
  | cons a l ih =>
    intro m
    cases hl : a.ltp with
    | none => rw [highsAux_cons_missing m a l hl]; exact ih m
    | some p =>
      cases m with
      | none =>
        rw [highsAux_cons_start a l p hl]
        refine List.sorted_cons.mpr ⟨?_, ih (some p)⟩
        intro b hb
        obtain ⟨pb, hpb, hub⟩ := highsAux_lb l (some p) b hb
        simp [hl, hpb]
        exact hub p rfl
      | some q =>
        rw [highsAux_cons_run a l p q hl]
        by_cases hqp : q ≤ p
        · rw [if_pos hqp]
          refine List.sorted_cons.mpr ⟨?_, ih (some p)⟩
          intro b hb
          obtain ⟨pb, hpb, hub⟩ := highsAux_lb l (some p) b hb
          simp [hl, hpb]
          exact hub p rfl
        · rw [if_neg hqp]
          exact ih (some q)

/-- The high points are a subsequence of the scanned series. -/
theorem highsAux_sublist (l : List StockRecord) :
    ∀ (m : Option ℚ), (highsAux m l).Sublist l := by
  induction l with
  | nil => intro m; simp [highsAux]
  | cons a l ih =>
    intro m
    cases hl : a.ltp with
    | none => rw [highsAux_cons_missing m a l hl]; exact (ih m).cons a
    | some p =>
      cases m with
      | none => rw [highsAux_cons_start a l p hl]; exact (ih (some p)).cons₂ a
      | some q =>
        rw [highsAux_cons_run a l p q hl]
        by_cases hqp : q ≤ p
        · rw [if_pos hqp]; exact (ih (some p)).cons₂ a
        · rw [if_neg hqp]; exact (ih (some q)).cons a

/-- Dataset of the C2 example: one symbol "S" whose chronological prices are
100, 90, 105, 105, 95. -/
def exC2 : List StockRecord :=
  [mkRec 0 "S" (some 100) (some 1) "T", mkRec 1 "S" (some 90) (some 1) "T",
   mkRec 2 "S" (some 105) (some 1) "T", mkRec 3 "S" (some 105) (some 1) "T",
   mkRec 4 "S" (some 95) (some 1) "T"]

/-- C2: every high point returned by `get_stock_highs` has a non-missing
price, the prices of the high points are non-decreasing in chronological
(output) order, and on the example series with chronological prices
[100, 90, 105, 105, 95] the high points are exactly the records with prices
[100, 105, 105]. -/
theorem c2_get_stock_highs_monotone :
    (∀ (ds : List StockRecord) (sym : String),
      (∀ r ∈ (get_stock_highs ds sym).1, r.ltp.isSome) ∧
      List.Sorted (fun a b : StockRecord => a.ltp.getD 0 ≤ b.ltp.getD 0)
        (get_stock_highs ds sym).1) ∧
    (get_stock_highs exC2 "S").1 =
      [mkRec 0 "S" (some 100) (some 1) "T", mkRec 2 "S" (some 105) (some 1) "T",
       mkRec 3 "S" (some 105) (some 1) "T"] ∧
    (get_stock_highs exC2 "S").1.map (fun r => r.ltp) =
      [some 100, some 105, some 105] := by
  refine ⟨?_, by decide, by decide⟩
  intro ds sym
  constructor
  · intro r hr
    unfold get_stock_highs at hr
    by_cases h1 : sym = ""
    · simp [h1] at hr
    · rw [if_neg h1] at hr
      by_cases h2 : (ds.filter (fun r => r.symbol == sym)).isEmpty
      · simp [h2] at hr
      · simp only [h2, if_neg, Bool.false_eq_true, not_false_eq_true] at hr
        obtain ⟨p, hp, _⟩ := highsAux_lb _ none r hr
        simp [hp]
  · unfold get_stock_highs
    by_cases h1 : sym = ""
    · simp [h1]
    · rw [if_neg h1]
      by_cases h2 : (ds.filter (fun r => r.symbol == sym)).isEmpty
      · simp [h2]
      · simp only [h2, Bool.false_eq_true, if_false]
        exact highsAux_sorted _ none

/-- C2 witness: the universal part applied to the concrete example — the
first returned high point of the example carries a non-missing price. -/
theorem c2_example_first_high_isSome :
    (mkRec 0 "S" (some 100) (some 1) "T").ltp.isSome :=
  (c2_get_stock_highs_monotone.1 exC2 "S").1 _ (by decide)

/-- C10: if the chronologically first record of the symbol's series has a
non-missing price, the high-point list is non-empty and starts with exactly
that record (the first record always equals its own running maximum). -/
theorem c10_first_record_is_high (ds : List StockRecord) (sym : String)
    (r0 : StockRecord) (h1 : (get_stock_highs ds sym).2.head? = some r0)
    (h2 : r0.ltp.isSome) :
    (get_stock_highs ds sym).1.head? = some r0 := by
  unfold get_stock_highs at h1 ⊢
  by_cases hs : sym = ""
  · simp [hs] at h1
  · rw [if_neg hs] at h1 ⊢
    by_cases he : (ds.filter (fun r => r.symbol == sym)).isEmpty
    · simp [he] at h1
    · simp only [he, Bool.false_eq_true, if_false] at h1 ⊢
      cases hsort : sortByDate (ds.filter (fun r => r.symbol == sym)) with
      | nil => rw [hsort] at h1; simp at h1
      | cons a l =>
        rw [hsort] at h1
        simp at h1
        subst h1
        obtain ⟨p, hp⟩ := Option.isSome_iff_exists.mp h2
        rw [highsAux_cons_start a l p hp]
        rfl

/-- C10 witness: on the example dataset the chronologically first record of
symbol "S" is its first high point. -/
theorem c10_witness :
    (get_stock_highs exC2 "S").1.head? = some (mkRec 0 "S" (some 100) (some 1) "T") :=
  c10_first_record_is_high exC2 "S" _ (by decide) (by decide)

/-- Deletion of every occurrence of one character, modelling Python's
`str.replace(c, '')` for the one-character patterns `'%'`, `'₹'` and `','`
used by the source. -/
def removeAll (c : Char) (s : String) : String :=
  String.mk (s.data.filter (fun x => decide (x ≠ c)))

/-- Leading/trailing-whitespace strip at the character level, modelling
Python's `str.strip()`. -/
def trimStr (s : String) : String :=
  String.mk (((s.data.dropWhile Char.isWhitespace).reverse.dropWhile
    Char.isWhitespace).reverse)

/-- Uppercasing, modelling `str.upper()`. -/
def upperStr (s : String) : String :=
  String.mk (s.data.map Char.toUpper)

/-- Value of a digit run, most significant digit first. -/
def digitsToNat (cs : List Char) : Nat :=
  cs.foldl (fun n c => 10 * n + (c.toNat - 48)) 0

/-- Parse of an unsigned decimal literal `digits[.digits]` (either side of the
dot may be empty, but not both), the shapes accepted by Python's `float` and
`pd.to_numeric` that the dashboard's data can exercise (exponents are not
modelled; no claim uses them). -/
def parseUnsigned (cs : List Char) : Option ℚ :=
  let ip := cs.takeWhile Char.isDigit
  match cs.dropWhile Char.isDigit with
  | [] => if ip.isEmpty then none else some ((digitsToNat ip : ℚ))
  | '.' :: fr =>
    if fr.all Char.isDigit && !(ip.isEmpty && fr.isEmpty) then
      some ((digitsToNat ip : ℚ) + (digitsToNat fr : ℚ) / ((10 ^ fr.length : ℕ) : ℚ))
    else none
  | _ => none

/-- Signed decimal parse after stripping surrounding whitespace: the model of
`float(...)` / `pd.to_numeric(..., errors='coerce')` on a cleaned string,
`none` being NaN. -/
def parseDecimal (s : String) : Option ℚ :=
  match (trimStr s).data with
  | '-' :: rest => (parseUnsigned rest).map (fun q => -q)
  | '+' :: rest => parseUnsigned rest
  | cs => parseUnsigned cs

/-- Longest `digits[.digits]` token starting at the head of the list; the
matched text of the regex `\d+(?:\.\d+)?` anchored at a digit. -/
def numToken (cs : List Char) : List Char :=
  let ip := cs.takeWhile Char.isDigit
  match cs.dropWhile Char.isDigit with
  | '.' :: fr =>
    let f2 := fr.takeWhile Char.isDigit
    if f2.isEmpty then ip else ip ++ '.' :: f2
  | _ => ip

/-- First match of the regex `\d+(?:\.\d+)?` in the list, modelling
`str.extract(r'(\d+(?:\.\d+)?)')` (src/Dashboard.py:28). -/
def findNum : List Char → Option (List Char)
  | [] => none
  | c :: cs => if c.isDigit then some (numToken (c :: cs)) else findNum cs

/-- Market-cap cleaning pipeline (src/Dashboard.py:27-28): strip `₹` and `,`,
extract the leading numeric token, coerce to a number; `none` when no numeric
token occurs. -/
def parseMarketCap (s : String) : Option ℚ :=
  (findNum (removeAll ',' (removeAll '₹' s)).data).bind (fun t => parseUnsigned t)

/-- Round half to even on `ℚ`, the rounding used by Python's fixed-point
formatting and by numpy's `round`. -/
def roundHalfEven (x : ℚ) : ℤ :=
  if x - (Rat.floor x : ℚ) < 1/2 then Rat.floor x
  else if 1/2 < x - (Rat.floor x : ℚ) then Rat.floor x + 1
  else if Rat.floor x % 2 = 0 then Rat.floor x else Rat.floor x + 1

/-- Rounding to two decimal places, modelling pandas `.round(2)`. -/
def round2 (q : ℚ) : ℚ :=
  ((roundHalfEven (q * 100) : ℤ) : ℚ) / 100

/-- Left-pad with zeros to a given width. -/
def padZeros (p : Nat) (s : String) : String :=
  String.mk (List.replicate (p - s.length) '0') ++ s

/-- Fixed-point rendering with `p` decimal places, modelling Python's
`f"{x:.pf}"`. -/
def fmtFixed (p : Nat) (q : ℚ) : String :=
  let n := roundHalfEven (q * ((10 ^ p : ℕ) : ℚ))
  (if n < 0 then "-" else "") ++ toString (n.natAbs / 10 ^ p) ++ "." ++
    padZeros p (toString (n.natAbs % 10 ^ p))

/-- Comma insertion every three digits, on the reversed digit list. -/
def group3 : List Char → List Char
  | [] => []
  | [a] => [a]
  | [a, b] => [a, b]
  | [a, b, c] => [a, b, c]
  | a :: b :: c :: rest => a :: b :: c :: ',' :: group3 rest

/-- Decimal rendering of a natural number with thousands separators. -/
def withCommas (n : Nat) : String :=
  String.mk ((group3 (toString n).data.reverse).reverse)

/-- Fixed-point rendering with thousands separators in the integer part,
modelling Python's `f"{x:,.2f}"`. -/
def fmtFixedComma (p : Nat) (q : ℚ) : String :=
  let n := roundHalfEven (q * ((10 ^ p : ℕ) : ℚ))
  (if n < 0 then "-" else "") ++ withCommas (n.natAbs / 10 ^ p) ++ "." ++
    padZeros p (toString (n.natAbs % 10 ^ p))

/-- Rounding an integer-valued rational returns that integer. -/
theorem roundHalfEven_intCast (n : ℤ) : roundHalfEven ((n : ℚ)) = n := by
  unfold roundHalfEven
  rw [show Rat.floor ((n : ℚ)) = ⌊(n : ℚ)⌋ from rfl, Int.floor_intCast]
  norm_num

/-- Evaluation rule for `fmtFixed` when the scaled value is an integer. -/
theorem fmtFixed_intCast (p : Nat) (q : ℚ) (n : ℤ)
    (h : q * ((10 ^ p : ℕ) : ℚ) = (n : ℚ)) :
    fmtFixed p q = (if n < 0 then "-" else "") ++ toString (n.natAbs / 10 ^ p) ++
      "." ++ padZeros p (toString (n.natAbs % 10 ^ p)) := by
  unfold fmtFixed
  rw [h, roundHalfEven_intCast]

/-- Inputs of the presentation formatters: NaN/None (missing), a number, or a
string cell. -/
inductive FmtInput where
  | missing
  | num (q : ℚ)
  | str (s : String)
  deriving DecidableEq, Repr

/-- Currency-string cleaning shared by both formatters:
`.replace('₹','').replace(',','').strip()` — `parseDecimal` performs the
final strip itself. -/
def cleanMoneyString (s : String) : String :=
  removeAll ',' (removeAll '₹' s)

/-- Scale-selection branch of `format_number` (src/Dashboard.py:269-276). -/
def formatNumQ (q : ℚ) : String :=
  if (1000000000 : ℚ) ≤ q then "₹" ++ fmtFixed 2 (q / 1000000000) ++ "B"
  else if (10000000 : ℚ) ≤ q then "₹" ++ fmtFixed 2 (q / 10000000) ++ "Cr"
  else if (100000 : ℚ) ≤ q then "₹" ++ fmtFixed 2 (q / 100000) ++ "L"
  else "₹" ++ fmtFixedComma 2 q

/-- Embedding of `format_number` (src/Dashboard.py:261-278): "N/A" on
missing, strings cleaned and parsed (parse failure caught, giving "N/A"),
then the scaled-currency rendering. -/
def format_number : FmtInput → String
  | FmtInput.missing => "N/A"
  | FmtInput.num q => formatNumQ q
  | FmtInput.str s =>
    match parseDecimal (cleanMoneyString s) with
    | none => "N/A"
    | some q => formatNumQ q

/-- Embedding of `format_metric_value` (src/Dashboard.py:58-68): "N/A" on
missing, strings cleaned and parsed (failure caught as "N/A"), otherwise
fixed-point rendering at the given precision. -/
def format_metric_value (precision : Nat) : FmtInput → String
  | FmtInput.missing => "N/A"
  | FmtInput.num q => fmtFixed precision q
  | FmtInput.str s =>
    match parseDecimal (cleanMoneyString s) with
    | none => "N/A"
    | some q => fmtFixed precision q

/-- Scale table of the spec, largest first. -/
def specScales : List (ℚ × ℚ × String) :=
  [(1000000000, 1000000000, "B"), (10000000, 10000000, "Cr"), (100000, 100000, "L")]

/-- Modelled from the spec: `formatScaledCurrency(value)` — "missing → N/A;
otherwise choose the largest applicable scale among {≥1e9 → B divided by 1e9,
≥1e7 → Cr divided by 1e7, ≥1e5 → L divided by 1e5, else raw with thousands
separators}, 2 decimal places, currency symbol prefix".  Stated with an
explicit scale table searched largest-first, to be compared with the code's
`format_number`. -/
def formatScaledCurrencySpec (v : Option ℚ) : String :=
  match v with
  | none => "N/A"
  | some q =>
    match specScales.find? (fun t => decide (t.1 ≤ q)) with
    | some (_, d, suf) => "₹" ++ fmtFixed 2 (q / d) ++ suf
    | none => "₹" ++ fmtFixedComma 2 q

/-- C6: `format_number` returns "N/A" on missing input, matches the spec's
largest-applicable-scale selection on every number, and renders the claim's
concrete examples `150000000 ↦ "₹15.00Cr"` and `1200000000 ↦ "₹1.20B"`. -/
theorem c6_format_number_scales :
    format_number FmtInput.missing = "N/A" ∧
    format_number (FmtInput.num 150000000) = "₹15.00Cr" ∧
    format_number (FmtInput.num 1200000000) = "₹1.20B" ∧
    (∀ q : ℚ, format_number (FmtInput.num q) = formatScaledCurrencySpec (some q)) ∧
    formatScaledCurrencySpec none = "N/A" := by
  refine ⟨rfl, ?_, ?_, ?_, rfl⟩
  · show formatNumQ 150000000 = "₹15.00Cr"
    unfold formatNumQ
    rw [if_neg (by norm_num), if_pos (by norm_num),
        fmtFixed_intCast 2 ((150000000 : ℚ) / 10000000) 1500 (by norm_num)]
    decide
  · show formatNumQ 1200000000 = "₹1.20B"
    unfold formatNumQ
    rw [if_pos (by norm_num),
        fmtFixed_intCast 2 ((1200000000 : ℚ) / 1000000000) 120 (by norm_num)]
    decide
  intro q
  show formatNumQ q = _
  unfold formatNumQ formatScaledCurrencySpec specScales
  by_cases h1 : (1000000000 : ℚ) ≤ q
  · simp [h1, List.find?]
  · by_cases h2 : (10000000 : ℚ) ≤ q
    · simp [h1, h2, List.find?]
    · by_cases h3 : (100000 : ℚ) ≤ q
      · simp [h1, h2, h3, List.find?]
      · simp [h1, h2, h3, List.find?]

/-- C7: the formatters are total String-valued functions; on missing input
both return "N/A", and on a string whose cleaned form fails numeric parsing
(the genuinely malformed case) both degrade to "N/A" instead of
propagating an error. -/
theorem c7_formatters_degrade_to_na :
    format_number FmtInput.missing = "N/A" ∧
    (∀ p : Nat, format_metric_value p FmtInput.missing = "N/A") ∧
    (∀ s : String, parseDecimal (cleanMoneyString s) = none →
      format_number (FmtInput.str s) = "N/A" ∧
      ∀ p : Nat, format_metric_value p (FmtInput.str s) = "N/A") := by
  refine ⟨rfl, fun p => rfl, ?_⟩
  intro s hs
  constructor
  · show (match parseDecimal (cleanMoneyString s) with
      | none => "N/A" | some q => formatNumQ q) = "N/A"
    rw [hs]
  · intro p
    show (match parseDecimal (cleanMoneyString s) with
      | none => "N/A" | some q => fmtFixed p q) = "N/A"
    rw [hs]

/-- C7 witness: the malformed string "abc" makes both formatters return
"N/A". -/
theorem c7_witness :
    format_number (FmtInput.str "abc") = "N/A" ∧
    format_metric_value 2 (FmtInput.str "abc") = "N/A" :=
  ⟨(c7_formatters_degrade_to_na.2.2 "abc" (by decide)).1,
   (c7_formatters_degrade_to_na.2.2 "abc" (by decide)).2 2⟩

/-- One raw CSV row before normalization.  `ltp` arrives already numeric from
`pd.read_csv`'s type inference (the code never cleans it); the columns the
code cleans arrive as strings; `seriesType` may be NaN (`none`) before
`fillna('N/A')`. -/
structure RawRow where
  date : String
  symbol : String
  ltp : Option ℚ
  pchng : String
  marketCap : String
  sector : Option String
  industry : Option String
  seriesType : Option String
  roe : String
  roce : String
  peRatio : String
  bookValue : String
  dividendYield : String
  about : Option String
  deriving DecidableEq, Repr

/-- The spec's `DataLoadError`: the caught-exception path of `load_data`
(src/Dashboard.py:36-38), where the error is surfaced via `st.error` and an
empty dataframe is returned. -/
inductive DataLoadError where
  | dataLoadError
  deriving DecidableEq, Repr

/-- Input of `load_data`: an unreadable file, a readable file missing one of
the required columns, or a readable table (optional-column presence flags
plus the rows). -/
inductive CsvSource where
  | unreadable
  | missingRequired (col : String)
  | table (hasRoe hasRoce hasPe hasBook hasDiv : Bool) (rows : List RawRow)

/-- Date parse, abstracting `pd.to_datetime` (src/Dashboard.py:13): day
indices written as decimal strings parse; anything else raises, i.e. returns
`none` here and sends `load_data` to its error path. -/
def parseDate (s : String) : Option Nat :=
  let cs := (trimStr s).data
  if !cs.isEmpty && cs.all Char.isDigit then some (digitsToNat cs) else none

/-- Cleaning applied to `ROE, ROCE, P/E Ratio, Book Value, Dividend Yield`
(src/Dashboard.py:23): strip `%` then `₹` before `pd.to_numeric`. -/
def cleanNumCol (s : String) : String :=
  removeAll '₹' (removeAll '%' s)

/-- Normalization of a single row (the per-row effect of
src/Dashboard.py:13-33).  Optional columns that are absent from the table
load as missing.  Every parse failure in a numeric field is coerced to
`none`; the row itself is always kept. -/
def normalizeRow (hasRoe hasRoce hasPe hasBook hasDiv : Bool) (r : RawRow) :
    StockRecord :=
  { date := (parseDate r.date).getD 0,
    timeOfDay := 0,
    symbol := upperStr (trimStr r.symbol),
    ltp := r.ltp,
    pchng := parseDecimal (removeAll '%' r.pchng),
    sector := r.sector,
    industry := r.industry,
    seriesType := r.seriesType.getD "N/A",
    marketCap := parseMarketCap r.marketCap,
    peRatio := if hasPe then parseDecimal (cleanNumCol r.peRatio) else none,
    roe := if hasRoe then parseDecimal (cleanNumCol r.roe) else none,
    roce := if hasRoce then parseDecimal (cleanNumCol r.roce) else none,
    bookValue := if hasBook then parseDecimal (cleanNumCol r.bookValue) else none,
    dividendYield := if hasDiv then parseDecimal (cleanNumCol r.dividendYield) else none,
    about := r.about,
    month := none }

/-- Embedding of `load_data` (src/Dashboard.py:6-38): unreadable sources,
missing required columns, and unparseable dates all take the caught-exception
path; otherwise every row is normalized, in order. -/
def load_data : CsvSource → Except DataLoadError (List StockRecord)
  | CsvSource.unreadable => Except.error DataLoadError.dataLoadError
  | CsvSource.missingRequired _ => Except.error DataLoadError.dataLoadError
  | CsvSource.table hasRoe hasRoce hasPe hasBook hasDiv rows =>
    if rows.all (fun r => (parseDate r.date).isSome) then
      Except.ok (rows.map (normalizeRow hasRoe hasRoce hasPe hasBook hasDiv))
    else Except.error DataLoadError.dataLoadError

/-- C5: unreadable sources and missing required columns are the hard
`DataLoadError` failures; on a table whose dates parse, `load_data` succeeds
with exactly one output record per input row, in input order — the i-th
record is the normalization of the i-th row, present regardless of whether
its numeric fields parsed (failures become `none` inside the record). -/
theorem c5_load_data_total_per_row :
    load_data CsvSource.unreadable = Except.error DataLoadError.dataLoadError ∧
    (∀ c, load_data (CsvSource.missingRequired c) =
      Except.error DataLoadError.dataLoadError) ∧
    (∀ (hR hRc hP hB hD : Bool) (rows : List RawRow),
      (∀ r ∈ rows, (parseDate r.date).isSome) →
      load_data (CsvSource.table hR hRc hP hB hD rows) =
        Except.ok (rows.map (normalizeRow hR hRc hP hB hD)) ∧
      (rows.map (normalizeRow hR hRc hP hB hD)).length = rows.length ∧
      ∀ (i : Nat) (hi : i < rows.length),
        (rows.map (normalizeRow hR hRc hP hB hD))[i]? =
          some (normalizeRow hR hRc hP hB hD (rows.get ⟨i, hi⟩))) := by
  refine ⟨rfl, fun c => rfl, ?_⟩
  intro hR hRc hP hB hD rows hdates
  refine ⟨?_, List.length_map rows _, ?_⟩
  · simp only [load_data]
    rw [if_pos]
    rw [List.all_eq_true]
    intro r hr
    exact hdates r hr
  · intro i hi
    rw [List.getElem?_map, List.getElem?_eq_getElem hi]
    rfl

/-- Raw row used by the C5 witness: its `%chng` cell "abc%" fails numeric
parsing, its market cap has no numeric token. -/
def exC5raw : RawRow :=
  { date := "3", symbol := " tcs ", ltp := some 100, pchng := "abc%",
    marketCap := "₹x", sector := some "S", industry := none, seriesType := none,
    roe := "12", roce := "13", peRatio := "14", bookValue := "15",
    dividendYield := "16", about := none }

/-- C5 witness: the per-row theorem applied to a one-row table whose numeric
fields fail to parse — the load still succeeds, the row is still included,
and the failed fields are explicit missing values. -/
theorem c5_witness :
    load_data (CsvSource.table true true true true true [exC5raw]) =
      Except.ok [normalizeRow true true true true true exC5raw] ∧
    (normalizeRow true true true true true exC5raw).pchng = none ∧
    (normalizeRow true true true true true exC5raw).marketCap = none ∧
    (normalizeRow true true true true true exC5raw).symbol = "TCS" :=
  ⟨(c5_load_data_total_per_row.2.2 true true true true true [exC5raw]
      (by decide)).1,
   by decide, by decide, by decide⟩

/-- Record with the derived month field cleared; used to express that
`addMonthColumn` changes records in the month field only. -/
def clearMonth (r : StockRecord) : StockRecord :=
  { r with month := none }

/-- C9 counterexample: the claim says the dataset is identical (same records,
same fields) before and after the operations of every rendered view.  The
Month view (src/Dashboard.py:527) assigns a `Month` column to the dataset in
place: on a concrete one-record dataset the result differs from the input. -/
theorem c9_counterexample :
    addMonthColumn [mkRec 4 "BBB" (some 10) (some 1) "Tech"] ≠
      [mkRec 4 "BBB" (some 10) (some 1) "Tech"] := by
  decide

/-- C9 (amended): every filter (exact date, date range, month, sector,
series type) returns a sublist of its input — the same records, in the same
order, none altered — and `get_stock_highs` returns a series drawn entirely
from records of the dataset, with the high points a subsequence of that
series.  The exception forced by the counterexample: the Month view first
attaches a derived month label to every record of the dataset
(src/Dashboard.py:527), altering the records in the month field and nothing
else. -/
theorem c9_operations_preserve_records :
    (∀ (ds : List StockRecord) (d : Nat), (filterByExactDate ds d).Sublist ds) ∧
    (∀ (ds : List StockRecord) (s e : Nat), (filterByDateRange ds s e).Sublist ds) ∧
    (∀ (ds : List StockRecord) (lbl : String), (filterByMonth ds lbl).Sublist ds) ∧
    (∀ (ds : List StockRecord) (sec : String), (refineBySector ds sec).Sublist ds) ∧
    (∀ (ds : List StockRecord) (ser : String), (refineBySeriesType ds ser).Sublist ds) ∧
    (∀ (ds : List StockRecord) (sym : String),
      (get_stock_highs ds sym).2 ⊆ ds ∧
      ((get_stock_highs ds sym).1).Sublist (get_stock_highs ds sym).2) ∧
    (∀ ds : List StockRecord,
      (addMonthColumn ds).map clearMonth = ds.map clearMonth ∧
      (addMonthColumn ds).length = ds.length) := by
  refine ⟨fun ds d => List.filter_sublist ds,
          fun ds s e => List.filter_sublist ds,
          fun ds lbl => List.filter_sublist ds,
          fun ds sec => ?_, fun ds ser => ?_, fun ds sym => ⟨?_, ?_⟩, fun ds => ⟨?_, ?_⟩⟩
  · unfold refineBySector
    by_cases h : sec = "All"
    · simp [h]
    · simp only [h, if_false]; exact List.filter_sublist ds
  · unfold refineBySeriesType
    by_cases h : ser = "All"
    · simp [h]
    · simp only [h, if_false]; exact List.filter_sublist ds
  · intro r hr
    unfold get_stock_highs at hr
    by_cases h1 : sym = ""
    · simp [h1] at hr
    · rw [if_neg h1] at hr
      by_cases h2 : (ds.filter (fun r => r.symbol == sym)).isEmpty
      · simp [h2] at hr
      · simp only [h2, Bool.false_eq_true, if_false] at hr
        have : r ∈ ds.filter (fun r => r.symbol == sym) := by
          have := List.mem_insertionSort tsLe (l := ds.filter (fun r => r.symbol == sym)) (x := r)
          exact this.mp hr
        exact (List.mem_filter.mp this).1
  · unfold get_stock_highs
    by_cases h1 : sym = ""
    · simp [h1]
    · rw [if_neg h1]
      by_cases h2 : (ds.filter (fun r => r.symbol == sym)).isEmpty
      · simp [h2]
      · simp only [h2, Bool.false_eq_true, if_false]
        exact highsAux_sublist _ none
  · unfold addMonthColumn
    rw [List.map_map]
    rfl
  · unfold addMonthColumn
    simp

/-- C9 witness: the sublist facts applied at a concrete dataset, discharging
the membership hypothesis hidden in `⊆` at a concrete record. -/
theorem c9_witness :
    mkRec 4 "BBB" (some 10) (some 1) "Tech" ∈
      [mkRec 4 "BBB" (some 10) (some 1) "Tech"] :=
  ((c9_operations_preserve_records.2.2.2.2.2.1
      [mkRec 4 "BBB" (some 10) (some 1) "Tech"] "BBB").1) (by decide)

/-- C8: `filterByExactDate` is idempotent — filtering an already-filtered
subset by the same date returns the same subset.  The filter matches on the
`date` component only; `timeOfDay` is ignored, as `.dt.date` discards it. -/
theorem c8_filterByExactDate_idempotent (ds : List StockRecord) (d : Nat) :
    filterByExactDate (filterByExactDate ds d) d = filterByExactDate ds d := by
  simp [filterByExactDate, List.filter_filter]

/-- Lexicographic code-point comparison of character lists, the order Python
uses on strings. -/
def charListLeB : List Char → List Char → Bool
  | [], _ => true
  | _ :: _, [] => false
  | a :: as, b :: bs =>
    if a.toNat < b.toNat then true
    else if b.toNat < a.toNat then false
    else charListLeB as bs

/-- String order by code points (Python's string comparison, used by
`sorted` and `groupby`'s key ordering). -/
def strLe (a b : String) : Prop := charListLeB a.data b.data = true

instance : DecidableRel strLe := fun a b => by unfold strLe; infer_instance

theorem charListLeB_total (as bs : List Char) :
    charListLeB as bs = true ∨ charListLeB bs as = true := by
  induction as generalizing bs with
  | nil => left; rfl
  | cons a as ih =>
    cases bs with
    | nil => right; rfl
    | cons b bs =>
      by_cases hab : a.toNat < b.toNat
      · left; simp [charListLeB, hab]
      · by_cases hba : b.toNat < a.toNat
        · right; simp [charListLeB, hba]
        · rcases ih bs with h | h
          · left; simp [charListLeB, hab, hba, h]
          · right; simp [charListLeB, hab, hba, h]

theorem charListLeB_trans (as bs cs : List Char)
    (h1 : charListLeB as bs = true) (h2 : charListLeB bs cs = true) :
    charListLeB as cs = true := by
  induction as generalizing bs cs with
  | nil => rfl
  | cons a as ih =>
    cases bs with
    | nil => simp [charListLeB] at h1
    | cons b bs =>
      cases cs with
      | nil => simp [charListLeB] at h2
      | cons c cs =>
        simp only [charListLeB] at h1 h2 ⊢
        by_cases hab : a.toNat < b.toNat
        · by_cases hbc : b.toNat < c.toNat
          · rw [if_pos (show a.toNat < c.toNat by omega)]
          · rw [if_neg hbc] at h2
            by_cases hcb : c.toNat < b.toNat
            · rw [if_pos hcb] at h2; exact absurd h2 (by simp)
            · rw [if_pos (show a.toNat < c.toNat by omega)]
        · rw [if_neg hab] at h1
          by_cases hba : b.toNat < a.toNat
          · rw [if_pos hba] at h1; exact absurd h1 (by simp)
          · rw [if_neg hba] at h1
            by_cases hbc : b.toNat < c.toNat
            · rw [if_pos (show a.toNat < c.toNat by omega)]
            · rw [if_neg hbc] at h2
              by_cases hcb : c.toNat < b.toNat
              · rw [if_pos hcb] at h2; exact absurd h2 (by simp)
              · rw [if_neg hcb] at h2
                rw [if_neg (show ¬ a.toNat < c.toNat by omega),
                    if_neg (show ¬ c.toNat < a.toNat by omega)]
                exact ih bs cs h1 h2

instance : IsTotal String strLe := ⟨fun a b => charListLeB_total a.data b.data⟩

instance : IsTrans String strLe :=
  ⟨fun a b c h1 h2 => charListLeB_trans a.data b.data c.data h1 h2⟩

/-- Descending-count order on (sector, count) pairs: the order of
`value_counts()`. -/
def cntGe (a b : String × Nat) : Prop := b.2 ≤ a.2

instance : DecidableRel cntGe := fun a b => by unfold cntGe; infer_instance

instance : IsTotal (String × Nat) cntGe := ⟨by intro a b; unfold cntGe; omega⟩

instance : IsTrans (String × Nat) cntGe := ⟨by intro a b c; unfold cntGe; omega⟩

/-- The subset's sector column with NaN cells dropped, the value population
`value_counts()` actually counts. -/
def presentSectors (l : List StockRecord) : List String :=
  l.filterMap (fun r => r.sector)

/-- Sector histogram of the Month and Date-Range views
(src/Dashboard.py:569-570, 719-720):
`filtered_data['Sector'].value_counts()` — one (sector, count) pair per
distinct non-missing sector, ordered by descending count; records whose
sector is NaN are dropped entirely, as `value_counts` drops NaN.  The tie
order of equal counts is not specified by the code (quicksort over the
hash-table group order); the model fixes it by a stable sort over the
deduplicated sector list. -/
def sector_counts (l : List StockRecord) : List (String × Nat) :=
  List.insertionSort cntGe
    ((presentSectors l).dedup.map
      (fun s => (s, (presentSectors l).count s)))

/-- Denominator of the percentage column:
`sector_counts['Count'].sum()` (src/Dashboard.py:571). -/
def sectorTotal (l : List StockRecord) : Nat :=
  ((sector_counts l).map (fun p => p.2)).sum

/-- Percentage column (src/Dashboard.py:571):
`(Count / Count.sum() * 100).round(2)`. -/
def sector_percentages (l : List StockRecord) : List ℚ :=
  (sector_counts l).map (fun p => round2 ((p.2 : ℚ) / (sectorTotal l : ℚ) * 100))

/-- Half-even rounding moves a rational by at most one half. -/
theorem roundHalfEven_abs_le (x : ℚ) : |((roundHalfEven x : ℤ) : ℚ) - x| ≤ 1/2 := by
  have h1 : ((Rat.floor x : ℤ) : ℚ) ≤ x := by
    rw [show Rat.floor x = ⌊x⌋ from rfl]; exact Int.floor_le x
  have h2 : x < ((Rat.floor x : ℤ) : ℚ) + 1 := by
    rw [show Rat.floor x = ⌊x⌋ from rfl]; exact Int.lt_floor_add_one x
  unfold roundHalfEven
  by_cases hr : x - ((Rat.floor x : ℤ) : ℚ) < 1/2
  · rw [if_pos hr, abs_le]; constructor <;> linarith
  · rw [if_neg hr]
    by_cases hr2 : (1 : ℚ)/2 < x - ((Rat.floor x : ℤ) : ℚ)
    · rw [if_pos hr2]; push_cast; rw [abs_le]; constructor <;> linarith
    · rw [if_neg hr2]
      by_cases he : Rat.floor x % 2 = 0
      · rw [if_pos he, abs_le]; constructor <;> linarith
      · rw [if_neg he]; push_cast; rw [abs_le]; constructor <;> linarith

/-- Rounding to two decimals moves a rational by at most 1/200. -/
theorem round2_abs_le (q : ℚ) : |round2 q - q| ≤ 1/200 := by
  unfold round2
  have h := roundHalfEven_abs_le (q * 100)
  have heq : ((roundHalfEven (q * 100) : ℤ) : ℚ)/100 - q =
      (((roundHalfEven (q * 100) : ℤ) : ℚ) - q * 100)/100 := by ring
  rw [heq, abs_div, abs_of_pos (show (0:ℚ) < 100 by norm_num)]
  linarith

/-- Summing two-decimal roundings moves a sum by at most 1/200 per entry. -/
theorem sum_round2_abs_le (xs : List ℚ) :
    |(xs.map round2).sum - xs.sum| ≤ (xs.length : ℚ)/200 := by
  induction xs with
  | nil => simp
  | cons a xs ih =>
    simp only [List.map_cons, List.sum_cons, List.length_cons]
    have h := round2_abs_le a
    calc |(round2 a + (xs.map round2).sum) - (a + xs.sum)|
        = |(round2 a - a) + ((xs.map round2).sum - xs.sum)| := by ring_nf
      _ ≤ |round2 a - a| + |(xs.map round2).sum - xs.sum| := abs_add _ _
      _ ≤ 1/200 + (xs.length : ℚ)/200 := add_le_add h ih
      _ = ((xs.length + 1 : ℕ) : ℚ)/200 := by push_cast; ring

/-- C4 (amended): whenever at least one record of the subset has a
non-missing sector, the sector histogram is ordered by descending count (the
tie order follows the underlying group order, not the sector-name ascending
order the claim states — see the counterexample); the counts sum to the
number of records whose sector is present (`value_counts` drops NaN sectors,
so this can be less than the subset size); the unrounded percentages
`count/countSum*100` sum to exactly 100; and the rounded percentages sum to
100 within 1/200 per sector.  A non-empty subset whose sectors are all
missing instead yields an empty histogram whose percentages sum to 0 — see
the counterexample. -/
theorem c4_sector_histogram (l : List StockRecord)
    (h : ∃ r ∈ l, r.sector.isSome) :
    List.Sorted cntGe (sector_counts l) ∧
    sectorTotal l = (presentSectors l).length ∧
    ((sector_counts l).map
      (fun p => (p.2 : ℚ) / (sectorTotal l : ℚ) * 100)).sum = 100 ∧
    |(sector_percentages l).sum - 100| ≤ ((sector_counts l).length : ℚ) / 200 := by
  have htot : sectorTotal l = (presentSectors l).length := by
    unfold sectorTotal sector_counts
    have hperm := (List.perm_insertionSort cntGe
      ((presentSectors l).dedup.map
        (fun s => (s, (presentSectors l).count s)))).map
      (fun p : String × Nat => p.2)
    rw [hperm.sum_eq, List.map_map]
    have : ((fun p : String × Nat => p.2) ∘
        (fun s => (s, (presentSectors l).count s))) =
        (fun s => (presentSectors l).count s) := rfl
    rw [this, List.sum_map_count_dedup_eq_length]
  have hlenpos : (0 : ℚ) < ((presentSectors l).length : ℚ) := by
    obtain ⟨r, hrl, hrs⟩ := h
    obtain ⟨v, hv⟩ := Option.isSome_iff_exists.mp hrs
    have hmem : v ∈ presentSectors l := by
      unfold presentSectors
      exact List.mem_filterMap.mpr ⟨r, hrl, hv⟩
    have : 0 < (presentSectors l).length :=
      List.length_pos.mpr (List.ne_nil_of_mem hmem)
    exact_mod_cast this
  have hsum : ((sector_counts l).map
      (fun p => (p.2 : ℚ) / (sectorTotal l : ℚ) * 100)).sum = 100 := by
    rw [htot]
    have hcong : (sector_counts l).map
        (fun p => (p.2 : ℚ) / ((presentSectors l).length : ℚ) * 100) =
        (sector_counts l).map
        (fun p => (p.2 : ℚ) * (100 / ((presentSectors l).length : ℚ))) := by
      apply List.map_congr_left
      intro p _
      ring
    rw [hcong, List.sum_map_mul_right]
    have hcast : ((sector_counts l).map (fun p : String × Nat => ((p.2 : ℕ) : ℚ))).sum =
        ((sectorTotal l : ℕ) : ℚ) := by
      unfold sectorTotal
      rw [Nat.cast_list_sum, List.map_map]
      rfl
    rw [hcast, htot]
    field_simp
  refine ⟨List.sorted_insertionSort cntGe _, htot, hsum, ?_⟩
  unfold sector_percentages
  have hmm : (sector_counts l).map
      (fun p => round2 ((p.2 : ℚ) / (sectorTotal l : ℚ) * 100)) =
      ((sector_counts l).map
        (fun p => (p.2 : ℚ) / (sectorTotal l : ℚ) * 100)).map round2 := by
    rw [List.map_map]
    rfl
  rw [hmm]
  have hb := sum_round2_abs_le
    ((sector_counts l).map (fun p => (p.2 : ℚ) / (sectorTotal l : ℚ) * 100))
  rw [hsum, List.length_map] at hb
  exact hb

/-- Order the claim asserts for the histogram: descending count with ties
broken by sector name ascending. -/
def countDescNameAsc (a b : String × Nat) : Prop :=
  b.2 < a.2 ∨ (a.2 = b.2 ∧ strLe a.1 b.1)

/-- Dataset of the C4 counterexample: two records whose sectors "B" and "A"
each occur once. -/
def exC4 : List StockRecord :=
  [mkRec 0 "X" (some 1) (some 1) "B", mkRec 0 "Y" (some 1) (some 1) "A"]

/-- Non-empty dataset whose only record has a missing sector. -/
def exC4nan : List StockRecord :=
  [{ mkRec 0 "X" (some 1) (some 1) "B" with sector := none }]

/-- C4 counterexample: two failures of the claim.  On a subset whose sectors
"B" and "A" are tied at one occurrence each, `value_counts` keeps the group
order — "B" before "A" — so the histogram is not ordered with ties broken by
sector name ascending.  And on a non-empty subset whose only record has a
missing sector, `value_counts` drops the NaN cell: the histogram is empty
and the percentages sum to 0, not 100. -/
theorem c4_counterexample :
    (sector_counts exC4 = [("B", 1), ("A", 1)] ∧
      ¬ List.Sorted countDescNameAsc (sector_counts exC4)) ∧
    (exC4nan ≠ [] ∧ sector_counts exC4nan = [] ∧
      (sector_percentages exC4nan).sum = 0) := by
  refine ⟨⟨by decide, ?_⟩, by decide, by decide, rfl⟩
  intro hs
  rw [show sector_counts exC4 = [("B", 1), ("A", 1)] from by decide] at hs
  have hrel := (List.sorted_cons.mp hs).1 ("A", 1) (by simp)
  rcases hrel with hrel | hrel
  · omega
  · have hba : ¬ strLe "B" "A" := by decide
    exact hba hrel.2

/-- C4 witness: the amended theorem applied to the concrete two-sector
subset. -/
theorem c4_witness :
    List.Sorted cntGe (sector_counts exC4) ∧
    sectorTotal exC4 = (presentSectors exC4).length ∧
    ((sector_counts exC4).map
      (fun p => (p.2 : ℚ) / (sectorTotal exC4 : ℚ) * 100)).sum = 100 ∧
    |(sector_percentages exC4).sum - 100| ≤ ((sector_counts exC4).length : ℚ) / 200 :=
  c4_sector_histogram exC4 (by decide)

/-- Strict timestamp order (earlier-than) on records. -/
def tsLt (a b : StockRecord) : Prop :=
  a.date < b.date ∨ (a.date = b.date ∧ a.timeOfDay < b.timeOfDay)

/-- Timestamp equality on records. -/
def tsEq (a b : StockRecord) : Prop :=
  a.date = b.date ∧ a.timeOfDay = b.timeOfDay

/-- Descending order on the `%chng` key with NaN last, the secondary key of
`sort_values(["Today's Date", '%chng'], ascending=[False, False])`
(`na_position='last'`). -/
def pcGe : Option ℚ → Option ℚ → Prop
  | _, none => True
  | none, some _ => False
  | some a, some b => b ≤ a

instance : ∀ x y : Option ℚ, Decidable (pcGe x y) := fun x y =>
  match x, y with
  | none, none => isTrue trivial
  | some _, none => isTrue trivial
  | none, some _ => isFalse (fun hf => hf)
  | some a, some b => inferInstanceAs (Decidable (b ≤ a))

theorem pcGe_refl (x : Option ℚ) : pcGe x x := by
  cases x with
  | none => trivial
  | some a => exact le_refl a

theorem pcGe_total (x y : Option ℚ) : pcGe x y ∨ pcGe y x := by
  cases x with
  | none =>
    cases y with
    | none => left; trivial
    | some b => right; trivial
  | some a =>
    cases y with
    | none => left; trivial
    | some b =>
      rcases le_total a b with h | h
      · right; exact h
      · left; exact h

theorem pcGe_trans {x y z : Option ℚ} (h1 : pcGe x y) (h2 : pcGe y z) :
    pcGe x z := by
  cases z with
  | none =>
    cases x with
    | none => trivial
    | some a => trivial
  | some c =>
    cases y with
    | none => exact absurd h2 (fun hf => hf)
    | some b =>
      cases x with
      | none => exact absurd h1 (fun hf => hf)
      | some a => exact le_trans h2 h1

/-- Row order of `get_latest_stock_data`'s sort (src/Dashboard.py:54): later
timestamps first, ties broken by higher `%chng` with missing `%chng` last. -/
def latestRel (a b : StockRecord) : Prop :=
  tsLt b a ∨ (tsEq a b ∧ pcGe a.pchng b.pchng)

instance : DecidableRel latestRel := fun a b => by
  unfold latestRel tsLt tsEq
  infer_instance

theorem latestRel_refl (a : StockRecord) : latestRel a a :=
  Or.inr ⟨⟨rfl, rfl⟩, pcGe_refl a.pchng⟩

instance : IsTotal StockRecord latestRel := ⟨by
  intro a b
  by_cases h1 : tsLt a b
  · right; exact Or.inl h1
  · by_cases h2 : tsLt b a
    · left; exact Or.inl h2
    · have hd : a.date = b.date ∧ a.timeOfDay = b.timeOfDay := by
        unfold tsLt at h1 h2; omega
      rcases pcGe_total a.pchng b.pchng with hp | hp
      · left; exact Or.inr ⟨⟨hd.1, hd.2⟩, hp⟩
      · right; exact Or.inr ⟨⟨hd.1.symm, hd.2.symm⟩, hp⟩⟩

instance : IsTrans StockRecord latestRel := ⟨by
  intro a b c hab hbc
  rcases hab with hab | ⟨heab, hpab⟩
  · rcases hbc with hbc | ⟨hebc, hpbc⟩
    · left; unfold tsLt at *; omega
    · left; unfold tsLt tsEq at *; omega
  · rcases hbc with hbc | ⟨hebc, hpbc⟩
    · left; unfold tsLt tsEq at *; omega
    · right; exact ⟨⟨heab.1.trans hebc.1, heab.2.trans hebc.2⟩,
        pcGe_trans hpab hpbc⟩⟩

/-- One output row of `get_latest_stock_data`: a record plus the
`count` column. -/
structure CountedRow where
  row : StockRecord
  count : Nat
  deriving DecidableEq, Inhabited, Repr

/-- Descending order on the `count` column
(`latest_data.sort_values('count', ascending=False)`). -/
def cntRowGe (a b : CountedRow) : Prop := b.count ≤ a.count

instance : DecidableRel cntRowGe := fun a b => by unfold cntRowGe; infer_instance

instance : IsTotal CountedRow cntRowGe := ⟨by intro a b; unfold cntRowGe; omega⟩

instance : IsTrans CountedRow cntRowGe := ⟨by intro a b c; unfold cntRowGe; omega⟩

/-- First non-missing value of a field down a row list: the per-column
behaviour of pandas `GroupBy.first`, which skips NaN cells column by
column. -/
def firstField {β : Type} (f : StockRecord → Option β) :
    List StockRecord → Option β
  | [] => none
  | r :: rs =>
    match f r with
    | some v => some v
    | none => firstField f rs

theorem firstField_cons_of_some {β : Type} (f : StockRecord → Option β)
    (r : StockRecord) (rs : List StockRecord) (h : (f r).isSome) :
    firstField f (r :: rs) = f r := by
  obtain ⟨v, hv⟩ := Option.isSome_iff_exists.mp h
  simp [firstField, hv]

theorem firstField_all_none {β : Type} (f : StockRecord → Option β)
    (l : List StockRecord) (h : ∀ x ∈ l, f x = none) :
    firstField f l = none := by
  induction l with
  | nil => rfl
  | cons r rs ih =>
    have hr := h r (List.mem_cons_self r rs)
    simp only [firstField, hr]
    exact ih (fun x hx => h x (List.mem_cons_of_mem r hx))

/-- The row `groupby('Symbol').first()` produces for one group, given the
group's rows in sort order: the date (never NaN after `to_datetime`) and the
series type (never NaN after `fillna('N/A')`) come from the first row, and
every nullable column — the numeric metrics as well as `Sector`, `Industry`
and `About` — takes its first non-missing value down the group, so when the
first row has missing cells the output row can mix cells of several
records. -/
def assembleRow (s : String) : List StockRecord → StockRecord
  | [] => { (default : StockRecord) with symbol := s }
  | r :: rs =>
    { date := r.date, timeOfDay := r.timeOfDay, symbol := s,
      ltp := firstField (fun x => x.ltp) (r :: rs),
      pchng := firstField (fun x => x.pchng) (r :: rs),
      sector := firstField (fun x => x.sector) (r :: rs),
      industry := firstField (fun x => x.industry) (r :: rs),
      seriesType := r.seriesType,
      marketCap := firstField (fun x => x.marketCap) (r :: rs),
      peRatio := firstField (fun x => x.peRatio) (r :: rs),
      roe := firstField (fun x => x.roe) (r :: rs),
      roce := firstField (fun x => x.roce) (r :: rs),
      bookValue := firstField (fun x => x.bookValue) (r :: rs),
      dividendYield := firstField (fun x => x.dividendYield) (r :: rs),
      about := firstField (fun x => x.about) (r :: rs),
      month := firstField (fun x => x.month) (r :: rs) }

theorem assembleRow_symbol (s : String) (grp : List StockRecord) :
    (assembleRow s grp).symbol = s := by
  cases grp <;> rfl

/-- The dataset sorted by descending timestamp then descending `%chng`
(src/Dashboard.py:54). -/
def sortedByLatest (l : List StockRecord) : List StockRecord :=
  List.insertionSort latestRel l

/-- The group keys of `groupby('Symbol')`: distinct symbols in ascending
order (pandas sorts group keys). -/
def symsOf (l : List StockRecord) : List String :=
  List.insertionSort strLe (l.map (fun r => r.symbol)).dedup

/-- Rows of one symbol group, in sort order. -/
def groupOf (l : List StockRecord) (s : String) : List StockRecord :=
  (sortedByLatest l).filter (fun r => r.symbol == s)

/-- The output row for one symbol: the `groupby.first` row plus the
`value_counts` occurrence count (src/Dashboard.py:53-55). -/
def latestRowFor (l : List StockRecord) (s : String) : CountedRow :=
  { row := assembleRow s (groupOf l s),
    count := (l.filter (fun r => r.symbol == s)).length }

/-- Embedding of `get_latest_stock_data` (src/Dashboard.py:51-56): sort by
(date desc, %chng desc), take the per-symbol `groupby.first` row, attach the
per-symbol record count, and order the result by that count descending. -/
def get_latest_stock_data (l : List StockRecord) : List CountedRow :=
  List.insertionSort cntRowGe ((symsOf l).map (latestRowFor l))

/-- A record with every nullable column present — the numeric metrics and
the `Sector`, `Industry` and `About` strings — and no derived month column:
the hypothesis under which `groupby.first` returns a genuine record. -/
def fullyPresent (r : StockRecord) : Prop :=
  r.ltp.isSome ∧ r.pchng.isSome ∧ r.marketCap.isSome ∧ r.peRatio.isSome ∧
  r.roe.isSome ∧ r.roce.isSome ∧ r.bookValue.isSome ∧ r.dividendYield.isSome ∧
  r.sector.isSome ∧ r.industry.isSome ∧ r.about.isSome ∧
  r.month = none

instance (r : StockRecord) : Decidable (fullyPresent r) := by
  unfold fullyPresent; infer_instance

theorem fullyPresent_month {r : StockRecord} (h : fullyPresent r) :
    r.month = none :=
  h.2.2.2.2.2.2.2.2.2.2.2

theorem assembleRow_eq_head (s : String) (g : StockRecord)
    (gs : List StockRecord) (hsym : g.symbol = s) (hfp : fullyPresent g)
    (hm : ∀ x ∈ g :: gs, x.month = none) :
    assembleRow s (g :: gs) = g := by
  refine StockRecord.ext rfl rfl hsym.symm
    (firstField_cons_of_some _ g gs hfp.1)
    (firstField_cons_of_some _ g gs hfp.2.1)
    (firstField_cons_of_some _ g gs hfp.2.2.2.2.2.2.2.2.1)
    (firstField_cons_of_some _ g gs hfp.2.2.2.2.2.2.2.2.2.1)
    rfl
    (firstField_cons_of_some _ g gs hfp.2.2.1)
    (firstField_cons_of_some _ g gs hfp.2.2.2.1)
    (firstField_cons_of_some _ g gs hfp.2.2.2.2.1)
    (firstField_cons_of_some _ g gs hfp.2.2.2.2.2.1)
    (firstField_cons_of_some _ g gs hfp.2.2.2.2.2.2.1)
    (firstField_cons_of_some _ g gs hfp.2.2.2.2.2.2.2.1)
    (firstField_cons_of_some _ g gs hfp.2.2.2.2.2.2.2.2.2.2.1)
    ?_
  show firstField (fun x => x.month) (g :: gs) = g.month
  rw [firstField_all_none (fun x => x.month) (g :: gs) hm]
  exact (hm g (List.mem_cons_self g gs)).symm

/-- Record with every nullable column present, for concrete examples. -/
def fullRec (d : Nat) (sym : String) (p c : ℚ) : StockRecord :=
  { date := d, timeOfDay := 0, symbol := sym, ltp := some p, pchng := some c,
    sector := some "S", industry := some "I", seriesType := "EQ",
    marketCap := some 1, peRatio := some 1, roe := some 1, roce := some 1,
    bookValue := some 1, dividendYield := some 1, about := some "A",
    month := none }

/-- The claim's concrete scenario: one symbol with records on day 1
(price 100) and day 5 (price 110). -/
def exC3pair : List StockRecord :=
  [fullRec 1 "AB" 100 2, fullRec 5 "AB" 110 1]

/-- C3 (amended): on a subset whose records have no missing nullable fields
— numeric metrics, sector, industry and about all present — and no derived
month column, `get_latest_stock_data` returns one row per
distinct symbol (no symbol repeats), each row being a record of the subset
that dominates every record of its symbol under (later date first, ties by
higher `%chng`, missing `%chng` last), carrying `count` = the number of
records of that symbol, with the rows ordered by `count` descending; on the
concrete two-record scenario the day-5 record is selected with count 2.
Without the all-fields-present hypothesis the returned row need not be a
record of the subset at all — see the counterexample. -/
theorem c3_latest_per_symbol (l : List StockRecord)
    (h : ∀ r ∈ l, fullyPresent r) :
    ((get_latest_stock_data l).map (fun cr => cr.row.symbol)).Nodup ∧
    (∀ cr ∈ get_latest_stock_data l,
      cr.row ∈ l ∧
      cr.count = (l.filter (fun r => r.symbol == cr.row.symbol)).length ∧
      ∀ r ∈ l, r.symbol = cr.row.symbol → latestRel cr.row r) ∧
    List.Sorted cntRowGe (get_latest_stock_data l) ∧
    (get_latest_stock_data exC3pair).map (fun cr => (cr.row, cr.count)) =
      [(fullRec 5 "AB" 110 1, 2)] := by
  have hperm : (get_latest_stock_data l).Perm ((symsOf l).map (latestRowFor l)) :=
    List.perm_insertionSort cntRowGe _
  have hgrp_mem : ∀ {x : StockRecord} {s : String},
      x ∈ groupOf l s → x ∈ l ∧ x.symbol = s := by
    intro x s hx
    unfold groupOf sortedByLatest at hx
    have hx' := List.mem_filter.mp hx
    constructor
    · have hx1 := hx'.1
      rw [List.mem_insertionSort] at hx1
      exact hx1
    · simpa using hx'.2
  have hsym_ex : ∀ {s : String}, s ∈ symsOf l → ∃ r ∈ l, r.symbol = s := by
    intro s hs
    unfold symsOf at hs
    rw [List.mem_insertionSort, List.mem_dedup, List.mem_map] at hs
    obtain ⟨r, hr, hrs⟩ := hs
    exact ⟨r, hr, hrs⟩
  have hgrp_ne : ∀ {s : String}, s ∈ symsOf l → groupOf l s ≠ [] := by
    intro s hs
    obtain ⟨r, hrl, hrs⟩ := hsym_ex hs
    have hrg : r ∈ groupOf l s := by
      unfold groupOf sortedByLatest
      rw [List.mem_filter, List.mem_insertionSort]
      exact ⟨hrl, by simpa using hrs⟩
    exact List.ne_nil_of_mem hrg
  have hgrp_sorted : ∀ s, List.Pairwise latestRel (groupOf l s) := by
    intro s
    unfold groupOf sortedByLatest
    exact List.Pairwise.sublist (List.filter_sublist _)
      (List.sorted_insertionSort latestRel l)
  have hrow : ∀ {s : String}, s ∈ symsOf l →
      (latestRowFor l s).row ∈ l ∧ (latestRowFor l s).row.symbol = s ∧
      (∀ r ∈ l, r.symbol = s → latestRel (latestRowFor l s).row r) := by
    intro s hs
    cases hgrp : groupOf l s with
    | nil => exact absurd hgrp (hgrp_ne hs)
    | cons g gs =>
      have hgmem : g ∈ groupOf l s := by
        rw [hgrp]; exact List.mem_cons_self g gs
      obtain ⟨hgl, hgsym⟩ := hgrp_mem hgmem
      have hmonths : ∀ x ∈ g :: gs, x.month = none := by
        intro x hx
        have hxg : x ∈ groupOf l s := by rw [hgrp]; exact hx
        exact fullyPresent_month (h x (hgrp_mem hxg).1)
      have hrowg : (latestRowFor l s).row = g := by
        show assembleRow s (groupOf l s) = g
        rw [hgrp]
        exact assembleRow_eq_head s g gs hgsym (h g hgl) hmonths
      refine ⟨by rw [hrowg]; exact hgl, by rw [hrowg]; exact hgsym, ?_⟩
      intro r hrl hrs
      have hrgrp : r ∈ groupOf l s := by
        unfold groupOf sortedByLatest
        rw [List.mem_filter, List.mem_insertionSort]
        exact ⟨hrl, by simpa using hrs⟩
      rw [hrowg]
      rw [hgrp] at hrgrp
      rcases List.mem_cons.mp hrgrp with h1 | h1
      · rw [h1]; exact latestRel_refl g
      · have hp := hgrp_sorted s
        rw [hgrp] at hp
        exact (List.pairwise_cons.mp hp).1 r h1
  refine ⟨?_, ?_, List.sorted_insertionSort cntRowGe _, by decide⟩
  · have hmap : ((symsOf l).map (latestRowFor l)).map (fun cr => cr.row.symbol) =
        symsOf l := by
      rw [List.map_map]
      calc (symsOf l).map ((fun cr : CountedRow => cr.row.symbol) ∘ latestRowFor l)
          = (symsOf l).map id :=
            List.map_congr_left (fun s _ => assembleRow_symbol s (groupOf l s))
        _ = symsOf l := List.map_id (symsOf l)
    have hnd : (symsOf l).Nodup := by
      unfold symsOf
      exact ((List.perm_insertionSort strLe _).nodup_iff).mpr (List.nodup_dedup _)
    have hpm : ((get_latest_stock_data l).map (fun cr => cr.row.symbol)).Perm
        (symsOf l) := hmap ▸ (hperm.map (fun cr => cr.row.symbol))
    exact hpm.nodup_iff.mpr hnd
  · intro cr hcr
    have hmem : cr ∈ (symsOf l).map (latestRowFor l) := hperm.subset hcr
    obtain ⟨s, hs, hcr_eq⟩ := List.mem_map.mp hmem
    obtain ⟨hrl, hrsym, hdom⟩ := hrow hs
    subst hcr_eq
    refine ⟨hrl, ?_, ?_⟩
    · show (l.filter (fun r => r.symbol == s)).length = _
      rw [hrsym]
    · intro r hrl2 hrs2
      exact hdom r hrl2 (hrs2.trans hrsym)

/-- Dataset of the C3 counterexample: symbol "Z" has its latest record (day
2) with a missing P/E ratio while an older record (day 1) has one. -/
def exC3chim : List StockRecord :=
  [fullRec 1 "Z" 100 5, { fullRec 2 "Z" 110 1 with peRatio := none }]

/-- C3 counterexample: the claim says each returned row is "the record with
the maximum date".  On `exC3chim`, `groupby('Symbol').first()` takes each
column's first non-NaN value down the group, so the returned row combines
the day-2 record's fields with the day-1 record's P/E ratio — it is not a
record of the subset at all, in particular not the maximum-date record. -/
theorem c3_counterexample :
    ¬ (∀ cr ∈ get_latest_stock_data exC3chim, cr.row ∈ exC3chim) := by
  decide

/-- C3 witness: the amended theorem applied to the two-record scenario of
the claim — one row per symbol and the day-5 record selected with count 2. -/
theorem c3_witness :
    ((get_latest_stock_data exC3pair).map (fun cr => cr.row.symbol)).Nodup ∧
    (get_latest_stock_data exC3pair).map (fun cr => (cr.row, cr.count)) =
      [(fullRec 5 "AB" 110 1, 2)] :=
  ⟨(c3_latest_per_symbol exC3pair (by decide)).1,
   (c3_latest_per_symbol exC3pair (by decide)).2.2.2⟩
